import Mathlib

/-!
Verification of the Common Crawl decline classifier
(`src/analysis/common_crawl.py`), shallowly embedded in Lean.

Python floats are modelled as rationals (`ℚ`), Python lists as `List`,
Python dicts (which preserve insertion order and have unique keys) as
association lists, and code that can raise a runtime exception as
`Except String`.
-/

/-- One typed row of the Common Crawl statistics table
(`StatsDict` in `common_crawl.py`). -/
structure StatsDict where
  crawl : String
  mimetype_detected : String
  pages : Nat
  urls : Nat
  pct_pages_per_crawl : ℚ
deriving DecidableEq, Repr

/-- A MIME type's per-crawl history: the ordered list of
`{crawl: pct_pages_per_crawl}` single-entry dicts built by
`filter_declining`. -/
abbrev MimeHistory := List (String × ℚ)

/-- The classifier's result type: an insertion-ordered dict from MIME type
to its history (`MimeDict` in the source). -/
abbrev MimeDict := List (String × MimeHistory)

/-- The sort key used by `sorted(typed_stats, key=lambda r: (r['mimetype_detected'], r['crawl']))`:
lexicographic comparison on the pair (mimetype_detected, crawl). -/
def keyLE (a b : StatsDict) : Prop :=
  a.mimetype_detected < b.mimetype_detected ∨
    (a.mimetype_detected = b.mimetype_detected ∧ a.crawl ≤ b.crawl)

instance : DecidableRel keyLE := fun a b => by
  unfold keyLE; infer_instance

/-- Strict version of `keyLE`, used to compare sorted row lists. -/
def keyLT (a b : StatsDict) : Prop :=
  a.mimetype_detected < b.mimetype_detected ∨
    (a.mimetype_detected = b.mimetype_detected ∧ a.crawl < b.crawl)

/-- The (mimetype_detected, crawl) pair of a row. -/
def rowKey (r : StatsDict) : String × String :=
  (r.mimetype_detected, r.crawl)

/-- Models `numpy.lib.stride_tricks.sliding_window_view(xs, 3)`: all
contiguous windows of length 3 (empty when fewer than 3 elements;
the caller models numpy's ValueError for that case). -/
def windows3 : List ℚ → List (ℚ × ℚ × ℚ)
  | a :: b :: c :: rest => (a, b, c) :: windows3 (b :: c :: rest)
  | _ => []

/-- Models `sliding_window_view(xs, 2)`: all contiguous windows of length 2. -/
def windows2 : List ℚ → List (ℚ × ℚ)
  | a :: b :: rest => (a, b) :: windows2 (b :: rest)
  | _ => []

/-- Computes `np.mean(window)` for a window of three values. -/
def mean3 (w : ℚ × ℚ × ℚ) : ℚ :=
  (w.1 + w.2.1 + w.2.2) / 3

/-- Computes `window_averages = [np.mean(window) for window in windows]` where
`windows = sliding_window_view(stats_values, 3)`. -/
def windowAverages (stats_values : List ℚ) : List ℚ :=
  (windows3 stats_values).map mean3

/-- Helper for the trailing-zero trim, working on the reversed list:
drops leading zeros and fails like Python's `xs[-1]` on an exhausted
list. -/
def trimRev : List ℚ → Except String (List ℚ)
  | [] => .error "IndexError: list index out of range"
  | x :: xs => if x = 0 then trimRev xs else .ok (x :: xs)

/-- The loop `while window_averages[-1] == 0.: window_averages.pop()`:
removes trailing zeros; raises IndexError when the list is emptied (the
`[-1]` access on an empty list). -/
def trimTrailingZeros (xs : List ℚ) : Except String (List ℚ) :=
  (trimRev xs.reverse).map List.reverse

/-- Computes `diffs = [pct[1] - pct[0] for pct in sliding_window_view(tail, 2)];
avg_increase = np.mean(diffs)`, including numpy's ValueError when the
tail has fewer than 2 points. -/
def avgDiffs (tail : List ℚ) : Except String ℚ :=
  if tail.length < 2 then
    .error "ValueError: window shape cannot be larger than input array shape"
  else
    let diffs := (windows2 tail).map fun p => p.2 - p.1
    .ok (diffs.sum / (diffs.length : ℚ))

/-- The per-MIME-type body of the classification loop of
`filter_declining`: smooth with window-3 averages, trim trailing zeros,
keep the last (at most) 12 points, and average the consecutive
differences.  Any of the runtime errors of the Python body surfaces as
`.error`. -/
def mimeAvgIncrease (stats_values : List ℚ) : Except String ℚ :=
  if stats_values.length < 3 then
    .error "ValueError: window shape cannot be larger than input array shape"
  else do
    let window_averages := windowAverages stats_values
    let trimmed ← trimTrailingZeros window_averages
    let last_usage_percentages := trimmed.drop (trimmed.length - 12)
    avgDiffs last_usage_percentages

/-- Models `declining_mime_types.setdefault(m, []); declining_mime_types[m].append(e)`
on an insertion-ordered dict: append `e` to the existing entry for `m`,
or add a new key at the end. -/
def appendEntry (acc : MimeDict) (m : String) (e : String × ℚ) : MimeDict :=
  match acc with
  | [] => [(m, [e])]
  | (k, v) :: rest =>
      if k = m then (k, v ++ [e]) :: rest else (k, v) :: appendEntry rest m e

/-- The grouping loop of `filter_declining`: walk the sorted rows,
skip `<unknown>` and `<other>`, and accumulate each row's
`{crawl: pct_pages_per_crawl}` entry under its MIME type. -/
def groupRows : List StatsDict → MimeDict → MimeDict
  | [], acc => acc
  | r :: rest, acc =>
      if r.mimetype_detected = "<unknown>" ∨ r.mimetype_detected = "<other>" then
        groupRows rest acc
      else
        groupRows rest
          (appendEntry acc r.mimetype_detected (r.crawl, r.pct_pages_per_crawl))

/-- The classification loop of `filter_declining`: for each MIME type in
insertion order compute `avg_increase` and delete the key when
`avg_increase >= 0`.  Any runtime error in the per-type computation
propagates. -/
def classify : MimeDict → Except String MimeDict
  | [] => .ok []
  | (m, hist) :: rest => do
      let avg ← mimeAvgIncrease (hist.map Prod.snd)
      let tail ← classify rest
      if avg < 0 then .ok ((m, hist) :: tail) else .ok tail

/-- Models `filter_declining(typed_stats)`: stable-sort the rows by
(mimetype, crawl) — Python's `sorted` is stable, modelled by insertion
sort, which is stable for a total preorder — group them into per-MIME
histories, and keep exactly the MIME types whose `avg_increase` is
negative.  Runtime exceptions of the Python function surface as
`.error`. -/
def filter_declining (typed_stats : List StatsDict) : Except String MimeDict :=
  classify (groupRows (List.insertionSort keyLE typed_stats) [])

/-- First-occurrence lookup in an association list, the access
`declining_mime_types[m]` of a Python dict. -/
def lookupH (k : String) : MimeDict → Option MimeHistory
  | [] => none
  | (k', v) :: rest => if k' = k then some v else lookupH k rest

/-- A MIME-type label survives the sentinel filter. -/
def keepKey (m : String) : Prop :=
  m ≠ "<unknown>" ∧ m ≠ "<other>"

instance : DecidablePred keepKey := fun m => by
  unfold keepKey; infer_instance

/-- A row survives the sentinel filter. -/
def keepRow (r : StatsDict) : Prop :=
  keepKey r.mimetype_detected

instance : DecidablePred keepRow := fun r => by
  unfold keepRow; infer_instance

/-- The history that the grouping loop assembles for MIME type `k` from
a row list: the entries of the kept rows labelled `k`, in list order. -/
def histSpec (k : String) (rows : List StatsDict) : MimeHistory :=
  (rows.filter fun r => decide (keepRow r) && (r.mimetype_detected == k)).map
    fun r => (r.crawl, r.pct_pages_per_crawl)

/-! ### Lemmas about the ordered-dict operations -/

theorem lookupH_appendEntry_self (acc : MimeDict) (m : String) (e : String × ℚ) :
    lookupH m (appendEntry acc m e) = some ((lookupH m acc).getD [] ++ [e]) := by
  induction acc with
  | nil => simp [appendEntry, lookupH]
  | cons p rest ih =>
      obtain ⟨k, v⟩ := p
      by_cases hk : k = m
      · subst hk
        simp [appendEntry, lookupH]
      · simp [appendEntry, lookupH, hk, ih]

theorem lookupH_appendEntry_ne (acc : MimeDict) (m : String) (e : String × ℚ)
    (k : String) (hk : k ≠ m) :
    lookupH k (appendEntry acc m e) = lookupH k acc := by
  induction acc with
  | nil => simp [appendEntry, lookupH, Ne.symm hk]
  | cons p rest ih =>
      obtain ⟨k', v⟩ := p
      by_cases hk' : k' = m
      · subst hk'
        simp [appendEntry, lookupH, Ne.symm hk]
      · simp [appendEntry, lookupH, hk', ih]

theorem mem_keys_appendEntry (acc : MimeDict) (m : String) (e : String × ℚ)
    (x : String) (hx : x ∈ (appendEntry acc m e).map Prod.fst) :
    x ∈ acc.map Prod.fst ∨ x = m := by
  induction acc with
  | nil => simpa [appendEntry] using hx
  | cons p rest ih =>
      obtain ⟨k, v⟩ := p
      by_cases hk : k = m
      · subst hk
        exact Or.inl (by simpa [appendEntry] using hx)
      · simp only [appendEntry, hk, if_false, List.map_cons, List.mem_cons] at hx
        rcases hx with hx | hx
        · exact Or.inl (by simp [hx])
        · rcases ih hx with h | h
          · exact Or.inl (by simp [h])
          · exact Or.inr h

theorem nodup_keys_appendEntry (acc : MimeDict) (m : String) (e : String × ℚ)
    (h : (acc.map Prod.fst).Nodup) :
    ((appendEntry acc m e).map Prod.fst).Nodup := by
  induction acc with
  | nil => simp [appendEntry]
  | cons p rest ih =>
      obtain ⟨k, v⟩ := p
      simp only [List.map_cons, List.nodup_cons] at h
      by_cases hk : k = m
      · subst hk
        simpa [appendEntry] using h
      · simp only [appendEntry, hk, if_false, List.map_cons, List.nodup_cons]
        refine ⟨fun hmem => ?_, ih h.2⟩
        rcases mem_keys_appendEntry rest m e k hmem with hmem' | hmem'
        · exact h.1 hmem'
        · exact hk hmem'

theorem nodup_keys_groupRows :
    ∀ (rows : List StatsDict) (acc : MimeDict),
      (acc.map Prod.fst).Nodup → ((groupRows rows acc).map Prod.fst).Nodup
  | [], acc, h => h
  | r :: rest, acc, h => by
      by_cases hr : r.mimetype_detected = "<unknown>" ∨ r.mimetype_detected = "<other>"
      · simpa [groupRows, hr] using nodup_keys_groupRows rest acc h
      · simpa [groupRows, hr] using
          nodup_keys_groupRows rest
            (appendEntry acc r.mimetype_detected (r.crawl, r.pct_pages_per_crawl))
            (nodup_keys_appendEntry acc r.mimetype_detected _ h)

theorem mem_iff_lookupH (g : MimeDict) (hnd : (g.map Prod.fst).Nodup)
    (k : String) (v : MimeHistory) :
    (k, v) ∈ g ↔ lookupH k g = some v := by
  induction g with
  | nil => simp [lookupH]
  | cons p rest ih =>
      obtain ⟨k0, v0⟩ := p
      simp only [List.map_cons, List.nodup_cons] at hnd
      by_cases hk : k0 = k
      · subst hk
        constructor
        · intro hmem
          rcases List.mem_cons.mp hmem with h | h
          · simp only [lookupH, if_pos rfl]
            exact congrArg some (congrArg Prod.snd h).symm
          · exact absurd (List.mem_map_of_mem Prod.fst h) hnd.1
        · intro hl
          simp only [lookupH, if_pos rfl] at hl
          exact List.mem_cons.mpr (Or.inl (by rw [Option.some.inj hl]))
      · simp only [lookupH, if_neg hk, List.mem_cons]
        rw [← ih hnd.2]
        constructor
        · rintro (h | h)
          · exact absurd (congrArg Prod.fst h.symm) hk
          · exact h
        · exact Or.inr

theorem histSpec_cons (k : String) (r : StatsDict) (rest : List StatsDict) :
    histSpec k (r :: rest) =
      if decide (keepRow r) && (r.mimetype_detected == k) then
        (r.crawl, r.pct_pages_per_crawl) :: histSpec k rest
      else histSpec k rest := by
  by_cases h : decide (keepRow r) && (r.mimetype_detected == k)
  · simp [histSpec, List.filter_cons, h]
  · simp [histSpec, List.filter_cons, h]

theorem lookupH_groupRows :
    ∀ (rows : List StatsDict) (acc : MimeDict) (k : String), keepKey k →
      lookupH k (groupRows rows acc) =
        if histSpec k rows = [] then lookupH k acc
        else some ((lookupH k acc).getD [] ++ histSpec k rows)
  | [], acc, k, _ => by simp [groupRows, histSpec]
  | r :: rest, acc, k, hk => by
      by_cases hr : r.mimetype_detected = "<unknown>" ∨ r.mimetype_detected = "<other>"
      · have hkr : decide (keepRow r) = false := by
          simp [keepRow, keepKey]
          tauto
        rw [groupRows, if_pos hr, histSpec_cons, hkr]
        simpa using lookupH_groupRows rest acc k hk
      · have hkr : decide (keepRow r) = true := by
          simp [keepRow, keepKey]
          tauto
        rw [groupRows, if_neg hr, histSpec_cons, hkr]
        by_cases hm : r.mimetype_detected = k
        · rw [lookupH_groupRows rest
            (appendEntry acc r.mimetype_detected (r.crawl, r.pct_pages_per_crawl)) k hk]
          rw [hm, lookupH_appendEntry_self]
          by_cases hrest : histSpec k rest = []
          · simp [hrest, hm]
          · simp [hrest, hm]
        · have : (r.mimetype_detected == k) = false := by
            simpa using hm
          rw [this]
          simp only [Bool.and_false, Bool.false_eq_true, if_false]
          rw [lookupH_groupRows rest
            (appendEntry acc r.mimetype_detected (r.crawl, r.pct_pages_per_crawl)) k hk]
          rw [lookupH_appendEntry_ne acc r.mimetype_detected _ k (Ne.symm hm)]

theorem lookupH_groupRows_sentinel :
    ∀ (rows : List StatsDict) (acc : MimeDict) (k : String), ¬ keepKey k →
      lookupH k (groupRows rows acc) = lookupH k acc
  | [], _, _, _ => rfl
  | r :: rest, acc, k, hk => by
      by_cases hr : r.mimetype_detected = "<unknown>" ∨ r.mimetype_detected = "<other>"
      · rw [groupRows, if_pos hr]
        exact lookupH_groupRows_sentinel rest acc k hk
      · rw [groupRows, if_neg hr]
        have hkm : k ≠ r.mimetype_detected := by
          intro h
          subst h
          exact hk (by simpa [keepKey] using hr)
        rw [lookupH_groupRows_sentinel rest _ k hk,
          lookupH_appendEntry_ne acc r.mimetype_detected _ k hkm]

/-- The value stored for `k` in the grouped dict is exactly the ordered
entry list of `k`'s kept rows. -/
theorem lookupH_groupRows_nil (rows : List StatsDict) (k : String)
    (v : MimeHistory) (h : lookupH k (groupRows rows []) = some v) :
    keepKey k ∧ v = histSpec k rows := by
  by_cases hk : keepKey k
  · refine ⟨hk, ?_⟩
    rw [lookupH_groupRows rows [] k hk] at h
    by_cases hrest : histSpec k rows = []
    · rw [if_pos hrest] at h
      exact absurd h (by simp [lookupH])
    · rw [if_neg hrest] at h
      simpa [lookupH] using h.symm
  · rw [lookupH_groupRows_sentinel rows [] k hk] at h
    exact absurd h (by simp [lookupH])

/-! ### Lemmas about the classification loop -/

theorem classify_cons_ok (m : String) (h : MimeHistory) (rest : MimeDict)
    (out : MimeDict) (hc : classify ((m, h) :: rest) = .ok out) :
    ∃ a t, mimeAvgIncrease (h.map Prod.snd) = .ok a ∧ classify rest = .ok t ∧
      out = if a < 0 then (m, h) :: t else t := by
  cases hA : mimeAvgIncrease (h.map Prod.snd) with
  | error e =>
      rw [classify] at hc
      simp [hA, Except.instMonad, Except.bind] at hc
  | ok a =>
      cases hR : classify rest with
      | error e =>
          rw [classify] at hc
          simp [hA, hR, Except.instMonad, Except.bind] at hc
      | ok t =>
          refine ⟨a, t, rfl, rfl, ?_⟩
          rw [classify] at hc
          by_cases hlt : a < 0
          · simp [hA, hR, hlt, Except.instMonad, Except.bind] at hc
            simp [hlt, hc.symm]
          · simp [hA, hR, hlt, Except.instMonad, Except.bind] at hc
            simp [hlt, hc.symm]

theorem classify_mem (l : MimeDict) (out : MimeDict) (hc : classify l = .ok out)
    (m : String) (h : MimeHistory) :
    (m, h) ∈ out ↔
      ((m, h) ∈ l ∧ ∃ a, mimeAvgIncrease (h.map Prod.snd) = .ok a ∧ a < 0) := by
  induction l generalizing out with
  | nil =>
      have : out = [] := by simpa [classify] using hc.symm
      subst this
      simp
  | cons p rest ih =>
      obtain ⟨m0, h0⟩ := p
      obtain ⟨a, t, hA, hR, hout⟩ := classify_cons_ok m0 h0 rest out hc
      subst hout
      by_cases hlt : a < 0
      · rw [if_pos hlt]
        constructor
        · intro hmem
          rcases List.mem_cons.mp hmem with heq | hmem'
          · refine ⟨List.mem_cons.mpr (Or.inl heq), a, ?_, hlt⟩
            obtain ⟨h1, h2⟩ := Prod.mk.injEq .. ▸ heq
            rw [h2]
            exact hA
          · obtain ⟨hmem'', ha⟩ := (ih t hR).mp hmem'
            exact ⟨List.mem_cons.mpr (Or.inr hmem''), ha⟩
        · rintro ⟨hmem, a', hA', ha'⟩
          rcases List.mem_cons.mp hmem with heq | hmem'
          · exact List.mem_cons.mpr (Or.inl heq)
          · exact List.mem_cons.mpr (Or.inr ((ih t hR).mpr ⟨hmem', a', hA', ha'⟩))
      · rw [if_neg hlt]
        constructor
        · intro hmem
          obtain ⟨hmem', ha⟩ := (ih t hR).mp hmem
          exact ⟨List.mem_cons.mpr (Or.inr hmem'), ha⟩
        · rintro ⟨hmem, a', hA', ha'⟩
          rcases List.mem_cons.mp hmem with heq | hmem'
          · exfalso
            obtain ⟨h1, h2⟩ := Prod.mk.injEq .. ▸ heq
            rw [h2] at hA'
            rw [hA] at hA'
            exact hlt (Except.ok.inj hA' ▸ ha')
          · exact (ih t hR).mpr ⟨hmem', a', hA', ha'⟩

/-! ### Order facts about the sort key -/

instance : IsTotal StatsDict keyLE :=
  ⟨fun a b => by
    rcases lt_trichotomy a.mimetype_detected b.mimetype_detected with h | h | h
    · exact Or.inl (Or.inl h)
    · rcases le_total a.crawl b.crawl with hc | hc
      · exact Or.inl (Or.inr ⟨h, hc⟩)
      · exact Or.inr (Or.inr ⟨h.symm, hc⟩)
    · exact Or.inr (Or.inl h)⟩

instance : IsTrans StatsDict keyLE :=
  ⟨fun a b c hab hbc => by
    rcases hab with h1 | ⟨h1, h1c⟩
    · rcases hbc with h2 | ⟨h2, h2c⟩
      · exact Or.inl (h1.trans h2)
      · exact Or.inl (h2 ▸ h1)
    · rcases hbc with h2 | ⟨h2, h2c⟩
      · exact Or.inl (h1 ▸ h2)
      · exact Or.inr ⟨h1.trans h2, h1c.trans h2c⟩⟩

instance : IsAntisymm StatsDict keyLT :=
  ⟨fun a b hab hba => by
    exfalso
    rcases hab with h1 | ⟨h1, h1c⟩
    · rcases hba with h2 | ⟨h2, _⟩
      · exact absurd (h1.trans h2) (lt_irrefl _)
      · exact absurd (h2 ▸ h1) (lt_irrefl _)
    · rcases hba with h2 | ⟨_, h2c⟩
      · exact absurd (h1 ▸ h2) (lt_irrefl _)
      · exact absurd (h1c.trans h2c) (lt_irrefl _)⟩

/-- A `keyLE`-sorted list whose (mimetype, crawl) keys are pairwise
distinct is sorted for the strict key order. -/
theorem sorted_keyLT_of_sorted_keyLE (l : List StatsDict)
    (hs : List.Sorted keyLE l) (hnd : (l.map rowKey).Nodup) :
    List.Sorted keyLT l := by
  have hne : List.Pairwise (fun a b : StatsDict => rowKey a ≠ rowKey b) l :=
    List.pairwise_map.mp hnd
  refine (hs.and hne).imp ?_
  rintro a b ⟨hle, hnekey⟩
  rcases hle with h | ⟨h, hc⟩
  · exact Or.inl h
  · refine Or.inr ⟨h, lt_of_le_of_ne hc fun hcc => ?_⟩
    exact hnekey (by simp [rowKey, h, hcc])

/-- Sorting two permuted row lists with pairwise-distinct keys gives the
same sorted list. -/
theorem insertionSort_eq_of_perm (l1 l2 : List StatsDict)
    (hp : List.Perm l1 l2) (hnd : (l1.map rowKey).Nodup) :
    List.insertionSort keyLE l1 = List.insertionSort keyLE l2 := by
  have hp1 := List.perm_insertionSort keyLE l1
  have hp2 := List.perm_insertionSort keyLE l2
  have hnd1 : ((List.insertionSort keyLE l1).map rowKey).Nodup :=
    ((hp1.map rowKey).nodup_iff).mpr hnd
  have hnd2 : ((List.insertionSort keyLE l2).map rowKey).Nodup :=
    ((hp2.map rowKey).nodup_iff).mpr (((hp.map rowKey).nodup_iff).mp hnd)
  exact List.eq_of_perm_of_sorted
    (hp1.trans (hp.trans hp2.symm))
    (sorted_keyLT_of_sorted_keyLE _ (List.sorted_insertionSort keyLE l1) hnd1)
    (sorted_keyLT_of_sorted_keyLE _ (List.sorted_insertionSort keyLE l2) hnd2)

/-! ### Lemmas about the sliding windows and the trim -/

theorem windows3_length : ∀ xs : List ℚ, (windows3 xs).length = xs.length - 2
  | [] => rfl
  | [_] => rfl
  | [_, _] => rfl
  | a :: b :: c :: rest => by
      rw [windows3]
      simp only [List.length_cons]
      rw [windows3_length (b :: c :: rest)]
      simp only [List.length_cons]
      omega

theorem windows3_get : ∀ (xs : List ℚ) (i : ℕ) (h : i + 2 < xs.length)
    (hw : i < (windows3 xs).length),
    (windows3 xs).get ⟨i, hw⟩ =
      (xs.get ⟨i, by omega⟩, xs.get ⟨i + 1, by omega⟩, xs.get ⟨i + 2, h⟩)
  | _ :: _ :: _ :: _, 0, _, _ => rfl
  | a :: b :: c :: rest, i + 1, h, hw =>
      windows3_get (b :: c :: rest) i
        (by simp only [List.length_cons] at h ⊢; omega)
        (by
          rw [windows3_length] at hw ⊢
          simp only [List.length_cons] at hw ⊢
          omega)

theorem windows2_length : ∀ xs : List ℚ, (windows2 xs).length = xs.length - 1
  | [] => rfl
  | [_] => rfl
  | a :: b :: rest => by
      rw [windows2]
      simp only [List.length_cons]
      rw [windows2_length (b :: rest)]
      simp only [List.length_cons]
      omega

theorem diffs_sum : ∀ (a : ℚ) (xs : List ℚ),
    ((windows2 (a :: xs)).map fun p => p.2 - p.1).sum
      = (a :: xs).getLast (List.cons_ne_nil a xs) - a
  | _, [] => by simp [windows2, List.getLast]
  | a, b :: rest => by
      rw [windows2]
      simp only [List.map_cons, List.sum_cons]
      rw [diffs_sum b rest]
      rw [List.getLast_cons (List.cons_ne_nil b rest)]
      ring

theorem trimRev_spec : ∀ (l : List ℚ), (∃ x ∈ l, x ≠ 0) →
    ∃ hd tl zs, trimRev l = .ok (hd :: tl) ∧ l = zs ++ hd :: tl ∧
      (∀ z ∈ zs, z = 0) ∧ hd ≠ 0
  | [], h => absurd h (by simp)
  | x :: xs, h => by
      by_cases hx : x = 0
      · subst hx
        have hxs : ∃ y ∈ xs, y ≠ 0 := by
          obtain ⟨y, hy, hy0⟩ := h
          rcases List.mem_cons.mp hy with rfl | hy'
          · exact absurd rfl hy0
          · exact ⟨y, hy', hy0⟩
        obtain ⟨hd, tl, zs, h1, h2, h3, h4⟩ := trimRev_spec xs hxs
        refine ⟨hd, tl, 0 :: zs, by simpa [trimRev] using h1, by simp [h2], ?_, h4⟩
        intro z hz
        rcases List.mem_cons.mp hz with rfl | hz'
        · rfl
        · exact h3 z hz'
      · exact ⟨x, xs, [], by simp [trimRev, hx], rfl, by simp, hx⟩

/-! ### Concrete inputs used in scenarios and counterexamples -/

/-- The four-row declining `text/html` scenario input. -/
def rows_text_html : List StatsDict :=
  [⟨"C1", "text/html", 100, 50, 50⟩, ⟨"C2", "text/html", 100, 50, 40⟩,
   ⟨"C3", "text/html", 100, 50, 30⟩, ⟨"C4", "text/html", 100, 50, 20⟩]

/-- A permutation of `rows_text_html`. -/
def rows_text_html_perm : List StatsDict :=
  [⟨"C4", "text/html", 100, 50, 20⟩, ⟨"C2", "text/html", 100, 50, 40⟩,
   ⟨"C1", "text/html", 100, 50, 50⟩, ⟨"C3", "text/html", 100, 50, 30⟩]

/-- The scenario input together with sentinel-labelled rows. -/
def rows_with_sentinels : List StatsDict :=
  rows_text_html ++
    [⟨"C1", "<unknown>", 1, 1, 99⟩, ⟨"C1", "<other>", 1, 1, 99⟩]

/-- An input whose single MIME type has an all-zero percentage series. -/
def rows_all_zero : List StatsDict :=
  [⟨"C1", "app/x", 0, 0, 0⟩, ⟨"C2", "app/x", 0, 0, 0⟩, ⟨"C3", "app/x", 0, 0, 0⟩]

/-- An input whose single MIME type has exactly 3 raw points with a
decreasing trend, so its smoothed series has exactly one point. -/
def rows_three_points : List StatsDict :=
  [⟨"C1", "app/x", 100, 50, 50⟩, ⟨"C2", "app/x", 100, 50, 40⟩,
   ⟨"C3", "app/x", 100, 50, 30⟩]

/-- An input with two rows sharing the (mimetype, crawl) key `("app/y", "C1")`
but different percentages, in one order... -/
def rows_dup_key_fst : List StatsDict :=
  [⟨"C1", "app/y", 1, 1, 10⟩, ⟨"C1", "app/y", 1, 1, 0⟩,
   ⟨"C2", "app/y", 1, 1, 5⟩, ⟨"C3", "app/y", 1, 1, 0⟩]

/-- ...and the same multiset of rows with the two `"C1"` rows swapped. -/
def rows_dup_key_snd : List StatsDict :=
  [⟨"C1", "app/y", 1, 1, 0⟩, ⟨"C1", "app/y", 1, 1, 10⟩,
   ⟨"C2", "app/y", 1, 1, 5⟩, ⟨"C3", "app/y", 1, 1, 0⟩]

/-- An input in which the same (mimetype, crawl) observation appears twice. -/
def rows_dup_crawl : List StatsDict :=
  [⟨"C1", "app/z", 1, 1, 50⟩, ⟨"C1", "app/z", 1, 1, 50⟩,
   ⟨"C2", "app/z", 1, 1, 40⟩, ⟨"C3", "app/z", 1, 1, 30⟩]

/-! ### The claims -/

/-- C4: for n ≥ 3 raw values the smoothing step yields exactly n - 2
points, the i-th being the arithmetic mean of the raw values at
positions i, i+1 and i+2. -/
theorem windowAverages_spec (xs : List ℚ) (h3 : 3 ≤ xs.length) :
    (windowAverages xs).length = xs.length - 2 ∧
    ∀ (i : ℕ) (h0 : i < (windowAverages xs).length) (ha : i < xs.length)
      (hb : i + 1 < xs.length) (hc : i + 2 < xs.length),
      (windowAverages xs).get ⟨i, h0⟩ =
        (xs.get ⟨i, ha⟩ + xs.get ⟨i + 1, hb⟩ + xs.get ⟨i + 2, hc⟩) / 3 := by
  constructor
  · rw [windowAverages, List.length_map, windows3_length]
  · intro i h0 ha hb hc
    have h0' : i < (windows3 xs).length := by
      simpa [windowAverages] using h0
    show ((windows3 xs).map mean3).get ⟨i, h0⟩ =
      (xs.get ⟨i, ha⟩ + xs.get ⟨i + 1, hb⟩ + xs.get ⟨i + 2, hc⟩) / 3
    rw [List.get_map, windows3_get xs i hc h0']
    rfl

/-- Witness for C4 at the concrete series [50, 40, 30, 20]. -/
theorem windowAverages_spec_witness :
    (windowAverages [50, 40, 30, 20]).length = 4 - 2 ∧
    (windowAverages [50, 40, 30, 20]).get
        ⟨0, by simp [windowAverages, windows3]⟩ =
      (([50, 40, 30, 20] : List ℚ).get ⟨0, by simp⟩ +
        ([50, 40, 30, 20] : List ℚ).get ⟨1, by simp⟩ +
        ([50, 40, 30, 20] : List ℚ).get ⟨2, by simp⟩) / 3 :=
  ⟨(windowAverages_spec [50, 40, 30, 20] (by simp)).1,
   (windowAverages_spec [50, 40, 30, 20] (by simp)).2 0
     (by simp [windowAverages, windows3]) (by simp) (by simp) (by simp)⟩

/-- C8: when the smoothed series is not all-zero, the trim removes
exactly the trailing zeros — the input splits as the kept prefix (whose
last point is non-zero) followed by the removed all-zero suffix. -/
theorem trimTrailingZeros_spec (xs : List ℚ) (h : ∃ x ∈ xs, x ≠ 0) :
    ∃ ys zs, trimTrailingZeros xs = .ok ys ∧ xs = ys ++ zs ∧
      (∀ z ∈ zs, z = 0) ∧ ∃ v, ys.getLast? = some v ∧ v ≠ 0 := by
  have hrev : ∃ x ∈ xs.reverse, x ≠ 0 := by
    obtain ⟨x, hx, hx0⟩ := h
    exact ⟨x, List.mem_reverse.mpr hx, hx0⟩
  obtain ⟨hd, tl, zs, h1, h2, h3, h4⟩ := trimRev_spec xs.reverse hrev
  refine ⟨(hd :: tl).reverse, zs.reverse, ?_, ?_, ?_, hd, ?_, h4⟩
  · simp [trimTrailingZeros, h1, Except.map]
  · have hxs := congrArg List.reverse h2
    simpa [List.reverse_append] using hxs
  · intro z hz
    exact h3 z (List.mem_reverse.mp hz)
  · rw [List.getLast?_reverse]
    rfl

/-- Witness for C8 at the concrete series [5, 3, 0, 0], which trims to
[5, 3]. -/
theorem trimTrailingZeros_spec_witness :
    (∃ ys zs, trimTrailingZeros [5, 3, 0, 0] = .ok ys ∧
      ([5, 3, 0, 0] : List ℚ) = ys ++ zs ∧
      (∀ z ∈ zs, z = 0) ∧ ∃ v, ys.getLast? = some v ∧ v ≠ 0) ∧
    trimTrailingZeros [5, 3, 0, 0] = .ok [5, 3] :=
  ⟨trimTrailingZeros_spec [5, 3, 0, 0] ⟨5, by norm_num, by norm_num⟩,
   by norm_num [trimTrailingZeros, trimRev, Except.map]⟩

/-- C10: the mean of consecutive first differences telescopes — on any
tail of length n ≥ 2 the computed `avg_increase` is
(last − first) / (n − 1), so the intermediate points never matter. -/
theorem avgDiffs_telescopes (tail : List ℚ) (hne : tail ≠ [])
    (h2 : 2 ≤ tail.length) :
    avgDiffs tail =
      .ok ((tail.getLast hne - tail.head hne) / ((tail.length : ℚ) - 1)) := by
  cases tail with
  | nil => exact absurd rfl hne
  | cons a xs =>
      rw [avgDiffs, if_neg (Nat.not_lt.mpr h2)]
      refine congrArg Except.ok ?_
      have hgl : (a :: xs).getLast hne = (a :: xs).getLast (List.cons_ne_nil a xs) := rfl
      rw [List.length_map, windows2_length, diffs_sum a xs, hgl, List.head_cons,
        List.length_cons, Nat.add_sub_cancel]
      push_cast
      ring

/-- Witness for C10 at the concrete tail [40, 30]. -/
theorem avgDiffs_telescopes_witness :
    avgDiffs [40, 30] =
      .ok ((([40, 30] : List ℚ).getLast (by simp) -
        ([40, 30] : List ℚ).head (by simp)) /
          ((([40, 30] : List ℚ).length : ℚ) - 1)) :=
  avgDiffs_telescopes [40, 30] (by simp) (by norm_num)

/-- C9: on the four-row `text/html` scenario the smoothed averages are
[40, 30], the single difference is −10, `avg_increase` is −10, and the
output maps `text/html` to its full 4-entry history. -/
theorem scenario_text_html_decline :
    windowAverages [50, 40, 30, 20] = [40, 30] ∧
    ((windows2 [40, 30]).map fun p => p.2 - p.1) = [-10] ∧
    mimeAvgIncrease [50, 40, 30, 20] = .ok (-10) ∧
    filter_declining rows_text_html =
      .ok [("text/html", [("C1", 50), ("C2", 40), ("C3", 30), ("C4", 20)])] := by
  refine ⟨?_, ?_, ?_, ?_⟩
  · norm_num [windowAverages, windows3, mean3]
  · norm_num [windows2]
  · norm_num [mimeAvgIncrease, windowAverages, windows3, windows2, mean3,
      trimTrailingZeros, trimRev, avgDiffs,
      Except.instMonad, Except.bind, Except.map, Except.pure]
  · simp [filter_declining, rows_text_html, List.insertionSort,
      List.orderedInsert, keyLE, groupRows, appendEntry, classify,
      mimeAvgIncrease, windowAverages, windows3, windows2, mean3,
      trimTrailingZeros, trimRev, avgDiffs,
      Except.instMonad, Except.bind, Except.map, Except.pure]
    norm_num [windows2]

/-- C2: on an input whose only MIME type has an all-zero smoothed
series, `filter_declining` raises an IndexError (the unguarded
`window_averages[-1]` check after the list has been emptied) instead of
silently excluding the MIME type. -/
theorem all_zero_series_raises_index_error :
    filter_declining rows_all_zero =
      .error "IndexError: list index out of range" := by
  simp [filter_declining, rows_all_zero, List.insertionSort,
    List.orderedInsert, keyLE, groupRows, appendEntry, classify,
    mimeAvgIncrease, windowAverages, windows3, windows2, mean3,
    trimTrailingZeros, trimRev, avgDiffs,
    Except.instMonad, Except.bind, Except.map, Except.pure]

/-- C3: on an input whose only MIME type has exactly 3 decreasing raw
points (a single smoothed point), `filter_declining` raises numpy's
ValueError from `sliding_window_view(tail, 2)` instead of treating
`avg_increase` as 0. -/
theorem single_smoothed_point_raises_value_error :
    filter_declining rows_three_points =
      .error "ValueError: window shape cannot be larger than input array shape" := by
  simp [filter_declining, rows_three_points, List.insertionSort,
    List.orderedInsert, keyLE, groupRows, appendEntry, classify,
    mimeAvgIncrease, windowAverages, windows3, windows2, mean3,
    trimTrailingZeros, trimRev, avgDiffs,
    Except.instMonad, Except.bind, Except.map, Except.pure]
  norm_num

/-- C1: whenever `filter_declining` returns a mapping, a (MIME type,
history) pair is in it exactly when the pair is in the grouped
per-MIME-type table and the `avg_increase` recomputed from that history
by the same smoothing/trimming/windowing procedure is strictly
negative; in particular every history with `avg_increase ≥ 0` is
excluded. -/
theorem mem_filter_declining_iff_avg_increase_neg (typed_stats : List StatsDict)
    (out : MimeDict) (hok : filter_declining typed_stats = .ok out)
    (m : String) (hist : MimeHistory) :
    (m, hist) ∈ out ↔
      ((m, hist) ∈ groupRows (List.insertionSort keyLE typed_stats) [] ∧
        ∃ a, mimeAvgIncrease (hist.map Prod.snd) = .ok a ∧ a < 0) :=
  classify_mem (groupRows (List.insertionSort keyLE typed_stats) []) out hok m hist

/-- Witness for C1 on the `text/html` scenario input. -/
theorem mem_filter_declining_iff_avg_increase_neg_witness :
    (("text/html", [("C1", (50 : ℚ)), ("C2", 40), ("C3", 30), ("C4", 20)]) ∈
        ([("text/html", [("C1", (50 : ℚ)), ("C2", 40), ("C3", 30), ("C4", 20)])] :
          MimeDict)) ↔
      (("text/html", [("C1", (50 : ℚ)), ("C2", 40), ("C3", 30), ("C4", 20)]) ∈
          groupRows (List.insertionSort keyLE rows_text_html) [] ∧
        ∃ a, mimeAvgIncrease
            (([("C1", (50 : ℚ)), ("C2", 40), ("C3", 30), ("C4", 20)] :
              MimeHistory).map Prod.snd) = .ok a ∧ a < 0) :=
  mem_filter_declining_iff_avg_increase_neg rows_text_html
    [("text/html", [("C1", 50), ("C2", 40), ("C3", 30), ("C4", 20)])]
    (by
      simp [filter_declining, rows_text_html, List.insertionSort,
        List.orderedInsert, keyLE, groupRows, appendEntry, classify,
        mimeAvgIncrease, windowAverages, windows3, windows2, mean3,
        trimTrailingZeros, trimRev, avgDiffs,
        Except.instMonad, Except.bind, Except.map, Except.pure]
      norm_num [windows2])
    "text/html" [("C1", 50), ("C2", 40), ("C3", 30), ("C4", 20)]

/-- C5: the sentinel labels `<unknown>` and `<other>` never appear as
keys of a successfully returned mapping. -/
theorem filter_declining_no_sentinel_keys (typed_stats : List StatsDict)
    (out : MimeDict) (hok : filter_declining typed_stats = .ok out)
    (hist : MimeHistory) :
    ("<unknown>", hist) ∉ out ∧ ("<other>", hist) ∉ out := by
  have hnd : ((groupRows (List.insertionSort keyLE typed_stats) []).map
      Prod.fst).Nodup :=
    nodup_keys_groupRows _ [] (by simp)
  have main : ∀ s : String, ¬ keepKey s → (s, hist) ∉ out := by
    intro s hs hmem
    have hg := (classify_mem (groupRows (List.insertionSort keyLE typed_stats) [])
      out hok s hist).mp hmem
    have hl := (mem_iff_lookupH _ hnd s hist).mp hg.1
    rw [lookupH_groupRows_sentinel _ [] s hs] at hl
    simp [lookupH] at hl
  exact ⟨main _ (by simp [keepKey]), main _ (by simp [keepKey])⟩

/-- Witness for C5 on the scenario input extended with sentinel rows. -/
theorem filter_declining_no_sentinel_keys_witness :
    ("<unknown>", ([] : MimeHistory)) ∉
        ([("text/html", [("C1", (50 : ℚ)), ("C2", 40), ("C3", 30), ("C4", 20)])] :
          MimeDict) ∧
      ("<other>", ([] : MimeHistory)) ∉
        ([("text/html", [("C1", (50 : ℚ)), ("C2", 40), ("C3", 30), ("C4", 20)])] :
          MimeDict) :=
  filter_declining_no_sentinel_keys rows_with_sentinels
    [("text/html", [("C1", 50), ("C2", 40), ("C3", 30), ("C4", 20)])]
    (by
      simp [filter_declining, rows_with_sentinels, rows_text_html,
        List.insertionSort, List.orderedInsert, keyLE, groupRows, appendEntry,
        classify, mimeAvgIncrease, windowAverages, windows3, windows2, mean3,
        trimTrailingZeros, trimRev, avgDiffs,
        Except.instMonad, Except.bind, Except.map, Except.pure]
      norm_num [windows2])
    []

/-- Counterexample to C6: two permutations of the same rows — two
observations share the (mimetype, crawl) key ("app/y", "C1") with
different percentages — give different output mappings: "app/y" is a
key of one mapping and absent from the other. -/
theorem filter_declining_order_dependent :
    List.Perm rows_dup_key_fst rows_dup_key_snd ∧
    filter_declining rows_dup_key_fst =
      .ok [("app/y", [("C1", 10), ("C1", 0), ("C2", 5), ("C3", 0)])] ∧
    filter_declining rows_dup_key_snd = .ok [] := by
  refine ⟨by decide, ?_, ?_⟩
  · simp [filter_declining, rows_dup_key_fst, List.insertionSort,
      List.orderedInsert, keyLE, groupRows, appendEntry, classify,
      mimeAvgIncrease, windowAverages, windows3, windows2, mean3,
      trimTrailingZeros, trimRev, avgDiffs,
      Except.instMonad, Except.bind, Except.map, Except.pure]
    norm_num [windows2]
  · simp [filter_declining, rows_dup_key_snd, List.insertionSort,
      List.orderedInsert, keyLE, groupRows, appendEntry, classify,
      mimeAvgIncrease, windowAverages, windows3, windows2, mean3,
      trimTrailingZeros, trimRev, avgDiffs,
      Except.instMonad, Except.bind, Except.map, Except.pure]
    norm_num [windows2]

/-- C6 (amended): when no two rows share the same (mimetype, crawl)
pair, `filter_declining` is invariant under permutation of the input
rows (and, being a pure function, yields the same mapping on repeated
runs). -/
theorem filter_declining_perm_invariant (l1 l2 : List StatsDict)
    (hp : List.Perm l1 l2) (hnd : (l1.map rowKey).Nodup) :
    filter_declining l1 = filter_declining l2 := by
  rw [filter_declining, filter_declining, insertionSort_eq_of_perm l1 l2 hp hnd]

/-- Witness for the amended C6 on a permutation of the scenario rows. -/
theorem filter_declining_perm_invariant_witness :
    filter_declining rows_text_html = filter_declining rows_text_html_perm :=
  filter_declining_perm_invariant rows_text_html rows_text_html_perm
    (by decide) (by decide)

/-- Counterexample to C7: an input in which the same (mimetype, crawl)
observation appears twice is retained in the output with a history that
is not unique per crawl. -/
theorem filter_declining_duplicate_crawl :
    filter_declining rows_dup_crawl =
      .ok [("app/z", [("C1", 50), ("C1", 50), ("C2", 40), ("C3", 30)])] ∧
    ¬ (([("C1", (50 : ℚ)), ("C1", 50), ("C2", 40), ("C3", 30)] :
        MimeHistory).map Prod.fst).Nodup := by
  refine ⟨?_, by decide⟩
  simp [filter_declining, rows_dup_crawl, List.insertionSort,
    List.orderedInsert, keyLE, groupRows, appendEntry, classify,
    mimeAvgIncrease, windowAverages, windows3, windows2, mean3,
    trimTrailingZeros, trimRev, avgDiffs,
    Except.instMonad, Except.bind, Except.map, Except.pure]
  norm_num [windows2]

/-- C7 (amended): when the input's (mimetype, crawl) pairs are pairwise
distinct, every history retained in a successfully returned mapping is
the full untrimmed entry sequence of that MIME type's kept rows in
crawl-sorted order, with strictly increasing (hence unique) crawls. -/
theorem filter_declining_history_invariant (typed_stats : List StatsDict)
    (hnd : (typed_stats.map rowKey).Nodup) (out : MimeDict)
    (hok : filter_declining typed_stats = .ok out)
    (m : String) (hist : MimeHistory) (hmem : (m, hist) ∈ out) :
    hist = histSpec m (List.insertionSort keyLE typed_stats) ∧
    List.Pairwise (fun e1 e2 : String × ℚ => e1.1 < e2.1) hist ∧
    (hist.map Prod.fst).Nodup := by
  have hndg : ((groupRows (List.insertionSort keyLE typed_stats) []).map
      Prod.fst).Nodup :=
    nodup_keys_groupRows _ [] (by simp)
  have hg := (classify_mem (groupRows (List.insertionSort keyLE typed_stats) [])
    out hok m hist).mp hmem
  have hl := (mem_iff_lookupH _ hndg m hist).mp hg.1
  obtain ⟨hkm, hhist⟩ := lookupH_groupRows_nil _ m hist hl
  have hsort : List.Sorted keyLE (List.insertionSort keyLE typed_stats) :=
    List.sorted_insertionSort keyLE typed_stats
  have hnds : ((List.insertionSort keyLE typed_stats).map rowKey).Nodup :=
    ((List.perm_insertionSort keyLE typed_stats).map rowKey).nodup_iff.mpr hnd
  have hstrict : List.Sorted keyLT (List.insertionSort keyLE typed_stats) :=
    sorted_keyLT_of_sorted_keyLE _ hsort hnds
  have hpair : List.Pairwise keyLT
      ((List.insertionSort keyLE typed_stats).filter
        fun r => decide (keepRow r) && (r.mimetype_detected == m)) :=
    List.Pairwise.sublist (List.filter_sublist _) hstrict
  have hmime : ∀ r ∈ (List.insertionSort keyLE typed_stats).filter
      (fun r => decide (keepRow r) && (r.mimetype_detected == m)),
      r.mimetype_detected = m := by
    intro r hr
    have hpr := List.of_mem_filter hr
    simp only [Bool.and_eq_true, beq_iff_eq] at hpr
    exact hpr.2
  have hcr : List.Pairwise (fun r1 r2 : StatsDict => r1.crawl < r2.crawl)
      ((List.insertionSort keyLE typed_stats).filter
        fun r => decide (keepRow r) && (r.mimetype_detected == m)) := by
    refine hpair.imp_of_mem ?_
    intro a b ha hb hab
    rcases hab with h | ⟨_, hc⟩
    · rw [hmime a ha, hmime b hb] at h
      exact absurd h (lt_irrefl _)
    · exact hc
  have hph : List.Pairwise (fun e1 e2 : String × ℚ => e1.1 < e2.1) hist := by
    rw [hhist, histSpec]
    exact List.pairwise_map.mpr hcr
  refine ⟨hhist, hph, ?_⟩
  exact List.pairwise_map.mpr (hph.imp fun hlt => ne_of_lt hlt)

/-- Witness for the amended C7 on the `text/html` scenario input. -/
theorem filter_declining_history_invariant_witness :
    ([("C1", (50 : ℚ)), ("C2", 40), ("C3", 30), ("C4", 20)] : MimeHistory) =
      histSpec "text/html" (List.insertionSort keyLE rows_text_html) ∧
    List.Pairwise (fun e1 e2 : String × ℚ => e1.1 < e2.1)
      ([("C1", (50 : ℚ)), ("C2", 40), ("C3", 30), ("C4", 20)] : MimeHistory) ∧
    (([("C1", (50 : ℚ)), ("C2", 40), ("C3", 30), ("C4", 20)] :
      MimeHistory).map Prod.fst).Nodup :=
  filter_declining_history_invariant rows_text_html (by decide)
    [("text/html", [("C1", 50), ("C2", 40), ("C3", 30), ("C4", 20)])]
    (by
      simp [filter_declining, rows_text_html, List.insertionSort,
        List.orderedInsert, keyLE, groupRows, appendEntry, classify,
        mimeAvgIncrease, windowAverages, windows3, windows2, mean3,
        trimTrailingZeros, trimRev, avgDiffs,
        Except.instMonad, Except.bind, Except.map, Except.pure]
      norm_num [windows2])
    "text/html" [("C1", 50), ("C2", 40), ("C3", 30), ("C4", 20)]
    (by simp)
